import Mathlib

/-!
Verification of the goblin dependency-injection container and lifecycle
orchestrator.

The definitions below are a shallow embedding of two source units:

* `core/lifecycle.go` — the `LifecycleManager` (states, hook dispatch,
  shutdown hook registry);
* the `di` package container — `Register`, `checkCircularDependencies`,
  `Resolve`, `createInstance` and the three scopes.

Hook participants are modelled by the observable data the dispatcher
inspects: for each of the four lifecycle interfaces, whether the value
implements it (a Go type assertion) and, if so, the result its hook
returns.  Hook results are `Option Nat`: `none` is a nil error, `some e`
is a non-nil error with code `e`.  Run functions additionally return the
list of participant identifiers whose hooks were invoked, in invocation
order, which models the observable side effects of hook dispatch.
-/

namespace Goblin

/-- The six lifecycle states of `core/lifecycle.go`
(`StateNotStarted` … `StateModuleDestroy`). -/
inductive LifecycleState
  | notStarted
  | moduleInit
  | appBootstrap
  | running
  | appShutdown
  | moduleDestroy
deriving DecidableEq, Repr

/-- A concrete (non-function) value registered with the lifecycle manager.
Each field records whether the value implements the corresponding Go
interface (`none` = type assertion fails) and the result the hook returns
when invoked. -/
structure Participant where
  pid : Nat
  onModuleInit : Option (Option Nat)
  onApplicationBootstrap : Option (Option Nat)
  onApplicationShutdown : Option (Option Nat)
  onModuleDestroy : Option (Option Nat)
deriving DecidableEq, Repr

/-- An entry of `LifecycleManager.providers` (`[]interface{}` in Go): either
a bare constructor function (`reflect.Kind == Func`) or a concrete
instance. -/
inductive Entry
  | func (pid : Nat)
  | inst (p : Participant)
deriving DecidableEq, Repr

/-- Whether an entry is a bare constructor function
(`reflect.TypeOf(provider).Kind() == reflect.Func`). -/
def Entry.isFunc : Entry → Bool
  | .func _ => true
  | .inst _ => false

/-- Identifier of an entry. -/
def Entry.pid : Entry → Nat
  | .func n => n
  | .inst p => p.pid

/-- The type assertion `provider.(OnModuleInit)`: a bare function value
implements no interface. -/
def Entry.onModuleInit : Entry → Option (Option Nat)
  | .func _ => none
  | .inst p => p.onModuleInit

/-- The type assertion `provider.(OnApplicationBootstrap)`. -/
def Entry.onApplicationBootstrap : Entry → Option (Option Nat)
  | .func _ => none
  | .inst p => p.onApplicationBootstrap

/-- The type assertion `provider.(OnApplicationShutdown)`. -/
def Entry.onApplicationShutdown : Entry → Option (Option Nat)
  | .func _ => none
  | .inst p => p.onApplicationShutdown

/-- The type assertion `provider.(OnModuleDestroy)`. -/
def Entry.onModuleDestroy : Entry → Option (Option Nat)
  | .func _ => none
  | .inst p => p.onModuleDestroy

/-- `LifecycleManager` of `core/lifecycle.go`: current state, registered
modules, registered providers, and the ad-hoc shutdown hook list (each
shutdown hook carries an identifier and the result it returns). -/
structure LifecycleManager where
  state : LifecycleState
  modules : List Participant
  providers : List Entry
  shutdownHooks : List (Nat × Option Nat)
deriving DecidableEq, Repr

/-- `NewLifecycleManager`. -/
def newLifecycleManager : LifecycleManager :=
  { state := .notStarted, modules := [], providers := [], shutdownHooks := [] }

/-- `RegisterModules`: appends to the module list. -/
def registerModules (m : LifecycleManager) (ms : List Participant) : LifecycleManager :=
  { m with modules := m.modules ++ ms }

/-- `RegisterProviders`: appends the given entries to the provider list,
as-is (`m.providers = append(m.providers, providers...)`). -/
def registerProviders (m : LifecycleManager) (ps : List Entry) : LifecycleManager :=
  { m with providers := m.providers ++ ps }

/-- `RegisterShutdownHook`: appends a callback to the shutdown hook list. -/
def registerShutdownHook (m : LifecycleManager) (h : Nat × Option Nat) : LifecycleManager :=
  { m with shutdownHooks := m.shutdownHooks ++ [h] }

/-- `ExtractLifecycleHooks`: appends only the entries that are not bare
function values (`providerType.Kind() == reflect.Func` entries are
skipped). -/
def extractLifecycleHooks (m : LifecycleManager) (ps : List Entry) : LifecycleManager :=
  { m with providers := m.providers ++ ps.filter (fun e => !e.isFunc) }

/-- A fail-fast dispatch loop (the loops of `RunModuleInit` /
`RunAppBootstrap`): walk the list in order; skip values that do not
implement the hook; on the first hook error stop and return it.  Returns
the invoked identifiers in order and the error, if any. -/
def runFailFast (hook : α → Option (Option Nat)) (ident : α → Nat) :
    List α → List Nat × Option Nat
  | [] => ([], none)
  | x :: rest =>
    match hook x with
    | none => runFailFast hook ident rest
    | some none =>
      let r := runFailFast hook ident rest
      (ident x :: r.1, r.2)
    | some (some e) => ([ident x], some e)

/-- A best-effort dispatch loop (the loops of `RunAppShutdown` /
`RunModuleDestroy`): every implementer is invoked; errors are logged and
dropped.  Returns the invoked identifiers in order. -/
def runBestEffort (hook : α → Option (Option Nat)) (ident : α → Nat) :
    List α → List Nat
  | [] => []
  | x :: rest =>
    match hook x with
    | none => runBestEffort hook ident rest
    | some _ => ident x :: runBestEffort hook ident rest

/-- Identifiers of the list elements that implement the hook, in list
order. -/
def implementerIds (hook : α → Option (Option Nat)) (ident : α → Nat) (l : List α) : List Nat :=
  (l.filter (fun x => (hook x).isSome)).map ident

/-- `RunModuleInit`: set state to `StateModuleInit`; invoke `OnModuleInit`
on modules in registration order, then on providers in registration
order; the first error aborts and is returned. -/
def runModuleInit (m : LifecycleManager) : LifecycleManager × List Nat × Option Nat :=
  let m1 := { m with state := .moduleInit }
  let rm := runFailFast Participant.onModuleInit Participant.pid m.modules
  match rm.2 with
  | some e => (m1, rm.1, some e)
  | none =>
    let rp := runFailFast Entry.onModuleInit Entry.pid m.providers
    (m1, rm.1 ++ rp.1, rp.2)

/-- `RunAppBootstrap`: set state to `StateAppBootstrap`; invoke
`OnApplicationBootstrap` on modules then providers, fail-fast; on full
success advance the state to `StateRunning`. -/
def runAppBootstrap (m : LifecycleManager) : LifecycleManager × List Nat × Option Nat :=
  let m1 := { m with state := .appBootstrap }
  let rm := runFailFast Participant.onApplicationBootstrap Participant.pid m.modules
  match rm.2 with
  | some e => (m1, rm.1, some e)
  | none =>
    let rp := runFailFast Entry.onApplicationBootstrap Entry.pid m.providers
    match rp.2 with
    | some e => (m1, rm.1 ++ rp.1, some e)
    | none => ({ m1 with state := .running }, rm.1 ++ rp.1, none)

/-- `RunAppShutdown`: set state to `StateAppShutdown`; invoke
`OnApplicationShutdown` on modules then providers, then every registered
shutdown hook, best-effort; always returns a nil error. -/
def runAppShutdown (m : LifecycleManager) : LifecycleManager × List Nat :=
  let m1 := { m with state := .appShutdown }
  (m1,
    runBestEffort Participant.onApplicationShutdown Participant.pid m.modules
      ++ runBestEffort Entry.onApplicationShutdown Entry.pid m.providers
      ++ m.shutdownHooks.map Prod.fst)

/-- `RunModuleDestroy`: set state to `StateModuleDestroy`; invoke
`OnModuleDestroy` on modules iterated from the last index down to zero,
then on providers iterated from the last index down to zero,
best-effort. -/
def runModuleDestroy (m : LifecycleManager) : LifecycleManager × List Nat :=
  let m1 := { m with state := .moduleDestroy }
  (m1,
    runBestEffort Participant.onModuleDestroy Participant.pid m.modules.reverse
      ++ runBestEffort Entry.onModuleDestroy Entry.pid m.providers.reverse)

/-- `GetState`. -/
def getState (m : LifecycleManager) : LifecycleState := m.state

/-! ## The dependency-injection container (`di` package)

Go values of type `reflect.Type` are modelled by `Ty`, with the type
`*gin.Context` as a distinguished token.  A constructor is modelled by its
reflected signature: the list of parameter types and the single return
type (the container rejects any other shape up front, so registered
constructors always have this form).  Calling a constructor is modelled
as allocating a fresh instance that records the arguments it received —
the behaviour of the reference-returning `New…` constructors the
container is used with — so that pointer identity of produced instances
is observable as equality of allocation ids. -/

/-- A reflected Go type.  `ginCtx` is `reflect.TypeOf(&gin.Context{})`. -/
inductive Ty
  | ginCtx
  | named (n : Nat)
deriving DecidableEq, Repr

/-- The three provider scopes of the `di` package. -/
inductive Scope
  | singleton
  | transient
  | requestScoped
deriving DecidableEq, Repr

/-- An argument slot of a constructed instance: either a reference to a
container-produced instance (by allocation id) or the request context
supplied for a `*gin.Context` parameter (by context id). -/
inductive VRef
  | objRef (i : Nat)
  | ctxRef (c : Nat)
deriving DecidableEq, Repr

/-- An instance produced by a constructor call: its allocation id (pointer
identity), the produced type, and the arguments the constructor
received. -/
structure Value where
  vid : Nat
  ty : Ty
  args : List VRef
deriving DecidableEq, Repr

/-- A registered provider: the constructor's parameter types, the declared
scope, and the cached singleton instance (`Provider.instance`, nil until
first singleton resolution). -/
structure Prov where
  params : List Ty
  scope : Scope
  inst : Option Value
deriving DecidableEq, Repr

/-- Errors of the `di` package, one constructor per distinct `fmt.Errorf`
site, carrying the data interpolated into the message. -/
inductive DIErr
  | notAFunction
  | wrongReturnArity
  | circularDependency (t : Ty)
  | providerNotFound (t : Ty)
  | unknownScope
  | contextRequired
  | ginCtxRequired
  | argResolveFailed (t : Ty) (e : DIErr)
  | fuelExhausted
deriving DecidableEq, Repr

/-- Lookup in an association list, modelling a Go map read. -/
def assocGet [DecidableEq α] (k : α) : List (α × β) → Option β
  | [] => none
  | (a, b) :: rest => if a = k then some b else assocGet k rest

/-- Update in an association list, modelling a Go map write. -/
def assocSet [DecidableEq α] (k : α) (v : β) : List (α × β) → List (α × β)
  | [] => [(k, v)]
  | (a, b) :: rest => if a = k then (k, v) :: rest else (a, b) :: assocSet k v rest

/-- The container state: the provider map (`Container.providers`), the
request-scoped caches living inside each `gin.Context` (keyed by context
id, then by provider type, modelling `ctx.Get`/`ctx.Set` under the
`"di:<type>"` key), and the allocation counter giving constructed
instances their identity. -/
structure DIState where
  providers : List (Ty × Prov)
  reqCaches : List (Nat × List (Ty × Value))
  nextId : Nat
deriving DecidableEq, Repr

/-- The empty container (`NewContainer`). -/
def newContainer : DIState := { providers := [], reqCaches := [], nextId := 0 }

/-- `checkCircularDependencies(constructorType, visited)`: walk the
parameter types in order; a parameter already in `visited` is reported as
a cycle; otherwise it is added to `visited`, the registered provider for
it (if any) is walked recursively, and it is removed again before the
next parameter.  Only types present in `Container.providers` are
followed.  The recursion is split into `checkCircularAux` (the loop over the
parameters) and the fuelled `checkCircular` (the descent through
registered providers); since every descent adds a distinct registered
provider key to `visited`, depth never exceeds the number of registered
providers, so `register` passes `providers.length` as fuel and the
exhausted-fuel descent (which finds nothing) is never taken there. -/
def checkCircularAux (provs : List (Ty × Prov))
    (descend : List Ty → List Ty → Option Ty) :
    List Ty → List Ty → Option Ty
  | [], _ => none
  | p :: rest, visited =>
    if p ∈ visited then some p
    else
      match assocGet p provs with
      | none => checkCircularAux provs descend rest visited
      | some prov =>
        match descend prov.params (p :: visited) with
        | some t => some t
        | none => checkCircularAux provs descend rest visited

/-- The fuelled walk; each descent through a registered provider consumes
one unit of fuel. -/
def checkCircular (provs : List (Ty × Prov)) : Nat → List Ty → List Ty → Option Ty
  | 0 => checkCircularAux provs (fun _ _ => none)
  | f + 1 => checkCircularAux provs (checkCircular provs f)

/-- `Container.Register(constructor, scope)`: check the constructor's
parameter graph for cycles against the already-registered providers, then
store the provider under its return type, overwriting any prior entry.
The provider being registered is stored only after the check, so it is
not itself visible to the walk. -/
def register (s : DIState) (ret : Ty) (params : List Ty) (scope : Scope) :
    Except DIErr DIState :=
  match checkCircular s.providers s.providers.length params [] with
  | some t => .error (.circularDependency t)
  | none =>
    .ok { s with providers := assocSet ret ⟨params, scope, none⟩ s.providers }

/-- Read the request-scoped cache of context `c` for provider type `t`
(`ctx.Get("di:<t>")`). -/
def cacheGet (s : DIState) (c : Nat) (t : Ty) : Option Value :=
  match assocGet c s.reqCaches with
  | none => none
  | some m => assocGet t m

/-- Store `v` in the request-scoped cache of context `c` under provider
type `t` (`ctx.Set("di:<t>", v)`). -/
def cacheSet (s : DIState) (c : Nat) (t : Ty) (v : Value) : DIState :=
  { s with
    reqCaches :=
      assocSet c
        (assocSet t v (match assocGet c s.reqCaches with | none => [] | some m => m))
        s.reqCaches }

/-- Set the cached singleton instance of the provider registered under
`t` (`provider.instance = instance`); providers for other types are
untouched. -/
def setProvInst (t : Ty) (v : Value) : List (Ty × Prov) → List (Ty × Prov)
  | [] => []
  | (a, p) :: rest =>
    if a = t then (a, { p with inst := some v }) :: rest
    else (a, p) :: setProvInst t v rest

/-- State after caching a singleton instance. -/
def setInst (t : Ty) (v : Value) (s : DIState) : DIState :=
  { s with providers := setProvInst t v s.providers }

/-- The argument loop of `createInstance`, parametric in the resolver used
for non-context parameters: a `*gin.Context` parameter receives the
request context directly (or fails if it is nil); every other parameter
is resolved recursively with the same context, a failure being wrapped
with the failing parameter type. -/
def resolveArgsWith (res : Ty → Option Nat → DIState → Except DIErr (Value × DIState)) :
    List Ty → Option Nat → DIState → Except DIErr (List VRef × DIState)
  | [], _, s => .ok ([], s)
  | t :: rest, ctx, s =>
    if t = Ty.ginCtx then
      match ctx with
      | none => .error .ginCtxRequired
      | some c =>
        match resolveArgsWith res rest ctx s with
        | .error e => .error e
        | .ok (vs, s1) => .ok (.ctxRef c :: vs, s1)
    else
      match res t ctx s with
      | .error e => .error (.argResolveFailed t e)
      | .ok (v, s1) =>
        match resolveArgsWith res rest ctx s1 with
        | .error e => .error e
        | .ok (vs, s2) => .ok (.objRef v.vid :: vs, s2)

/-- `Container.createInstance(provider, ctx)`, parametric in the resolver:
resolve the arguments, then call the constructor, which allocates a fresh
instance recording the arguments. -/
def createInstanceWith (res : Ty → Option Nat → DIState → Except DIErr (Value × DIState))
    (ret : Ty) (params : List Ty) (ctx : Option Nat) (s : DIState) :
    Except DIErr (Value × DIState) :=
  match resolveArgsWith res params ctx s with
  | .error e => .error e
  | .ok (vs, s1) => .ok (⟨s1.nextId, ret, vs⟩, { s1 with nextId := s1.nextId + 1 })

/-- `Container.Resolve(t, ctx)` together with `resolveProvider` and the
three scope resolvers, with a fuel bound on recursion depth through the
dependency graph:

* no provider: `ProviderNotFoundError`;
* `Singleton` (`resolveSingleton`): return the cached instance if present;
  otherwise construct with a **nil** context (`createInstance(provider,
  nil)`), cache, return;
* `Transient` (`resolveTransient`): always construct, passing the caller's
  context through;
* `RequestScoped` (`resolveRequestScoped`): nil context is
  `ContextRequiredError`; otherwise return the per-context cached
  instance, or construct with the same context and cache it. -/
def resolve : Nat → Ty → Option Nat → DIState → Except DIErr (Value × DIState)
  | 0, _, _, _ => .error .fuelExhausted
  | fuel + 1, t, ctx, s =>
    match assocGet t s.providers with
    | none => .error (.providerNotFound t)
    | some p =>
      match p.scope with
      | .singleton =>
        match p.inst with
        | some v => .ok (v, s)
        | none =>
          match createInstanceWith (resolve fuel) t p.params none s with
          | .error e => .error e
          | .ok (v, s1) => .ok (v, setInst t v s1)
      | .transient => createInstanceWith (resolve fuel) t p.params ctx s
      | .requestScoped =>
        match ctx with
        | none => .error .contextRequired
        | some c =>
          match cacheGet s c t with
          | some v => .ok (v, s)
          | none =>
            match createInstanceWith (resolve fuel) t p.params ctx s with
            | .error e => .error e
            | .ok (v, s1) => .ok (v, cacheSet s1 c t v)

/-! ## Concurrent first-time singleton resolution

An interleaving model of `resolveSingleton` for one provider, run by an
arbitrary set of threads.  Each thread executes the double-checked
locking protocol of the source: read `provider.instance` under the read
lock of `provider.mutex`; if nil, release, take the write lock,
re-check, construct if still nil, publish, release.  The `sync.RWMutex`
is modelled by a reader count and a writer flag with the usual enabling
conditions; constructed instances are numbered by a counter so distinct
constructions are observable. -/

/-- Program counter of a thread running `resolveSingleton`. -/
inductive SPC
  | start
  | readCheck
  | waitWrite
  | recheck
  | constructing
  | finished (v : Nat)
deriving DecidableEq, Repr

/-- Shared state of the provider plus all thread program counters. -/
structure SingletonSt where
  inst : Option Nat
  nextVal : Nat
  constructions : Nat
  readers : Nat
  writerHeld : Bool
  pcs : Nat → SPC

/-- Update one thread's program counter. -/
def setPC (f : Nat → SPC) (t : Nat) (p : SPC) : Nat → SPC :=
  fun u => if u = t then p else f u

/-- Initial state: no instance, no locks held, all threads about to call
`resolveSingleton`. -/
def singletonInit : SingletonSt :=
  { inst := none, nextVal := 0, constructions := 0, readers := 0,
    writerHeld := false, pcs := fun _ => .start }

/-- One interleaved step of the `resolveSingleton` protocol by thread `t`:

* `rlock`: `provider.mutex.RLock()`;
* `readHit`: instance present — take it, `RUnlock()`, return it;
* `readMiss`: instance nil — `RUnlock()`, go wait for the write lock;
* `wlock`: `provider.mutex.Lock()` (needs no writer and no readers);
* `recheckHit`: double-check finds an instance — unlock and return it;
* `recheckMiss`: double-check still nil — run `createInstance`;
* `construct`: construction completes: publish `provider.instance`,
  unlock, return the fresh instance. -/
inductive SStep : SingletonSt → SingletonSt → Prop
  | rlock (s : SingletonSt) (t : Nat)
      (h : s.pcs t = .start) (hw : s.writerHeld = false) :
      SStep s { s with readers := s.readers + 1, pcs := setPC s.pcs t .readCheck }
  | readHit (s : SingletonSt) (t : Nat) (v : Nat)
      (h : s.pcs t = .readCheck) (hv : s.inst = some v) :
      SStep s { s with readers := s.readers - 1, pcs := setPC s.pcs t (.finished v) }
  | readMiss (s : SingletonSt) (t : Nat)
      (h : s.pcs t = .readCheck) (hv : s.inst = none) :
      SStep s { s with readers := s.readers - 1, pcs := setPC s.pcs t .waitWrite }
  | wlock (s : SingletonSt) (t : Nat)
      (h : s.pcs t = .waitWrite) (hw : s.writerHeld = false) (hr : s.readers = 0) :
      SStep s { s with writerHeld := true, pcs := setPC s.pcs t .recheck }
  | recheckHit (s : SingletonSt) (t : Nat) (v : Nat)
      (h : s.pcs t = .recheck) (hv : s.inst = some v) :
      SStep s { s with writerHeld := false, pcs := setPC s.pcs t (.finished v) }
  | recheckMiss (s : SingletonSt) (t : Nat)
      (h : s.pcs t = .recheck) (hv : s.inst = none) :
      SStep s { s with pcs := setPC s.pcs t .constructing }
  | construct (s : SingletonSt) (t : Nat)
      (h : s.pcs t = .constructing) :
      SStep s { s with inst := some s.nextVal, nextVal := s.nextVal + 1,
                       constructions := s.constructions + 1, writerHeld := false,
                       pcs := setPC s.pcs t (.finished s.nextVal) }

/-- Reachability from the initial state under interleaved steps. -/
inductive SReach : SingletonSt → Prop
  | init : SReach singletonInit
  | step {s s1 : SingletonSt} : SReach s → SStep s s1 → SReach s1

/-! ## Lemmas about hook dispatch -/

theorem implementerIds_nil (hook : α → Option (Option Nat)) (ident : α → Nat) :
    implementerIds hook ident [] = [] := rfl

theorem implementerIds_cons (hook : α → Option (Option Nat)) (ident : α → Nat)
    (x : α) (l : List α) :
    implementerIds hook ident (x :: l) =
      if (hook x).isSome then ident x :: implementerIds hook ident l
      else implementerIds hook ident l := by
  simp only [implementerIds, List.filter_cons]
  split <;> simp_all

theorem runFailFast_all_ok (hook : α → Option (Option Nat)) (ident : α → Nat) :
    ∀ l : List α, (∀ x ∈ l, hook x = none ∨ hook x = some none) →
    runFailFast hook ident l = (implementerIds hook ident l, none) := by
  intro l h
  induction l with
  | nil => rfl
  | cons x rest ih =>
    have hx := h x (List.mem_cons_self x rest)
    have hrest : ∀ y ∈ rest, hook y = none ∨ hook y = some none :=
      fun y hy => h y (List.mem_cons_of_mem x hy)
    rcases hx with hx | hx <;>
      simp [runFailFast, hx, implementerIds_cons, ih hrest]

theorem runFailFast_first_err (hook : α → Option (Option Nat)) (ident : α → Nat)
    (l1 : List α) (x : α) (l2 : List α) (e : Nat)
    (h1 : ∀ y ∈ l1, hook y = none ∨ hook y = some none)
    (hx : hook x = some (some e)) :
    runFailFast hook ident (l1 ++ x :: l2) =
      (implementerIds hook ident l1 ++ [ident x], some e) := by
  induction l1 with
  | nil => simp [runFailFast, hx, implementerIds_nil]
  | cons y rest ih =>
    have hy := h1 y (List.mem_cons_self y rest)
    have hrest : ∀ z ∈ rest, hook z = none ∨ hook z = some none :=
      fun z hz => h1 z (List.mem_cons_of_mem y hz)
    rcases hy with hy | hy <;>
      simp [runFailFast, hy, implementerIds_cons, ih hrest]

theorem runBestEffort_eq_implementerIds (hook : α → Option (Option Nat)) (ident : α → Nat) :
    ∀ l : List α, runBestEffort hook ident l = implementerIds hook ident l := by
  intro l
  induction l with
  | nil => rfl
  | cons x rest ih =>
    cases hx : hook x <;> simp [runBestEffort, hx, implementerIds_cons, ih]

theorem runBestEffort_filter_funcs (hook : Entry → Option (Option Nat))
    (hf : ∀ n, hook (.func n) = none) :
    ∀ l : List Entry,
      runBestEffort hook Entry.pid (l.filter (fun e => !e.isFunc)) =
        runBestEffort hook Entry.pid l := by
  intro l
  induction l with
  | nil => rfl
  | cons x rest ih =>
    cases x with
    | func n =>
      rw [show List.filter (fun e => !e.isFunc) (Entry.func n :: rest) =
            List.filter (fun e => !e.isFunc) rest from rfl, ih]
      simp [runBestEffort, hf n]
    | inst p =>
      rw [show List.filter (fun e => !e.isFunc) (Entry.inst p :: rest) =
            Entry.inst p :: List.filter (fun e => !e.isFunc) rest from rfl]
      simp only [runBestEffort]
      rw [ih]

theorem runFailFast_filter_funcs (hook : Entry → Option (Option Nat))
    (hf : ∀ n, hook (.func n) = none) :
    ∀ l : List Entry,
      runFailFast hook Entry.pid (l.filter (fun e => !e.isFunc)) =
        runFailFast hook Entry.pid l := by
  intro l
  induction l with
  | nil => rfl
  | cons x rest ih =>
    cases x with
    | func n =>
      rw [show List.filter (fun e => !e.isFunc) (Entry.func n :: rest) =
            List.filter (fun e => !e.isFunc) rest from rfl, ih]
      simp [runFailFast, hf n]
    | inst p =>
      rw [show List.filter (fun e => !e.isFunc) (Entry.inst p :: rest) =
            Entry.inst p :: List.filter (fun e => !e.isFunc) rest from rfl]
      simp only [runFailFast]
      rw [ih]

/-! ## Claims C3, C6, C7, C8, C9 — lifecycle orchestrator -/

/-- Claim C3, counterexample: `RegisterProviders` of a bare constructor
function stores it in the provider list unchanged — the list does not
contain only concrete hook-participant instances. -/
theorem claim_C3_counterexample :
    (registerProviders newLifecycleManager [Entry.func 7]).providers = [Entry.func 7]
    ∧ Entry.isFunc (Entry.func 7) = true := by
  exact ⟨rfl, rfl⟩

/-- Claim C3, amended: `RegisterProviders` appends every given entry to
the provider list unfiltered; the filtering that excludes bare
constructor functions is performed by `ExtractLifecycleHooks`; a bare
constructor function implements none of the four lifecycle interfaces,
so it never receives a lifecycle callback — dropping all function
entries from a provider list leaves every dispatch loop's behaviour
unchanged. -/
theorem claim_C3_amended :
    (∀ (m : LifecycleManager) (ps : List Entry),
      (registerProviders m ps).providers = m.providers ++ ps)
    ∧ (∀ (m : LifecycleManager) (ps : List Entry),
      (extractLifecycleHooks m ps).providers = m.providers ++ ps.filter (fun e => !e.isFunc))
    ∧ (∀ n : Nat,
      Entry.onModuleInit (.func n) = none
      ∧ Entry.onApplicationBootstrap (.func n) = none
      ∧ Entry.onApplicationShutdown (.func n) = none
      ∧ Entry.onModuleDestroy (.func n) = none)
    ∧ (∀ l : List Entry,
      runBestEffort Entry.onApplicationShutdown Entry.pid (l.filter (fun e => !e.isFunc)) =
        runBestEffort Entry.onApplicationShutdown Entry.pid l
      ∧ runBestEffort Entry.onModuleDestroy Entry.pid (l.filter (fun e => !e.isFunc)) =
        runBestEffort Entry.onModuleDestroy Entry.pid l
      ∧ runFailFast Entry.onModuleInit Entry.pid (l.filter (fun e => !e.isFunc)) =
        runFailFast Entry.onModuleInit Entry.pid l
      ∧ runFailFast Entry.onApplicationBootstrap Entry.pid (l.filter (fun e => !e.isFunc)) =
        runFailFast Entry.onApplicationBootstrap Entry.pid l) := by
  refine ⟨fun m ps => rfl, fun m ps => rfl, fun n => ⟨rfl, rfl, rfl, rfl⟩, fun l => ?_⟩
  exact ⟨runBestEffort_filter_funcs _ (fun _ => rfl) l,
         runBestEffort_filter_funcs _ (fun _ => rfl) l,
         runFailFast_filter_funcs _ (fun _ => rfl) l,
         runFailFast_filter_funcs _ (fun _ => rfl) l⟩

/-- Claim C6: `RunModuleInit` invokes `OnModuleInit` on modules in
registration order, then on providers in registration order; the first
hook error aborts the phase immediately, is returned unchanged, and
nothing after it is invoked.  Stated as: (1) an error at module `x`
stops dispatch right after `x`, with no provider invoked; (2) an error
at provider `x` (all modules succeeding) stops dispatch right after `x`;
(3) when every hook succeeds, all implementers are invoked in
registration order, modules first. -/
theorem claim_C6_module_init_fail_fast :
    (∀ (m : LifecycleManager) (l1 : List Participant) (x : Participant)
        (l2 : List Participant) (e : Nat),
      m.modules = l1 ++ x :: l2 →
      (∀ y ∈ l1, y.onModuleInit = none ∨ y.onModuleInit = some none) →
      x.onModuleInit = some (some e) →
      runModuleInit m =
        ({ m with state := .moduleInit },
          implementerIds Participant.onModuleInit Participant.pid l1 ++ [x.pid],
          some e))
    ∧ (∀ (m : LifecycleManager) (l1 : List Entry) (x : Entry) (l2 : List Entry) (e : Nat),
      (∀ y ∈ m.modules, y.onModuleInit = none ∨ y.onModuleInit = some none) →
      m.providers = l1 ++ x :: l2 →
      (∀ y ∈ l1, Entry.onModuleInit y = none ∨ Entry.onModuleInit y = some none) →
      Entry.onModuleInit x = some (some e) →
      runModuleInit m =
        ({ m with state := .moduleInit },
          implementerIds Participant.onModuleInit Participant.pid m.modules
            ++ implementerIds Entry.onModuleInit Entry.pid l1 ++ [x.pid],
          some e))
    ∧ (∀ m : LifecycleManager,
      (∀ y ∈ m.modules, y.onModuleInit = none ∨ y.onModuleInit = some none) →
      (∀ y ∈ m.providers, Entry.onModuleInit y = none ∨ Entry.onModuleInit y = some none) →
      runModuleInit m =
        ({ m with state := .moduleInit },
          implementerIds Participant.onModuleInit Participant.pid m.modules
            ++ implementerIds Entry.onModuleInit Entry.pid m.providers,
          none)) := by
  refine ⟨?_, ?_, ?_⟩
  · intro m l1 x l2 e hm h1 hx
    simp only [runModuleInit]
    rw [hm, runFailFast_first_err _ _ l1 x l2 e h1 hx]
  · intro m l1 x l2 e hmods hp h1 hx
    simp only [runModuleInit]
    rw [runFailFast_all_ok _ _ m.modules hmods, hp,
      runFailFast_first_err _ _ l1 x l2 e h1 hx]
    simp [List.append_assoc]
  · intro m hmods hprovs
    simp only [runModuleInit]
    rw [runFailFast_all_ok _ _ m.modules hmods, runFailFast_all_ok _ _ m.providers hprovs]

/-- Claim C6 witness: a concrete manager with modules `[a, b, c]` where
`b`'s `OnModuleInit` fails with error 42, and one provider: only `a` and
`b` are invoked, the error is returned unchanged, `c` and the provider
are never called. -/
theorem claim_C6_witness :
    runModuleInit
      { state := .notStarted,
        modules := [⟨0, some none, none, none, none⟩,
                    ⟨1, some (some 42), none, none, none⟩,
                    ⟨2, some none, none, none, none⟩],
        providers := [.inst ⟨3, some none, none, none, none⟩],
        shutdownHooks := [] } =
      ({ state := .moduleInit,
         modules := [⟨0, some none, none, none, none⟩,
                     ⟨1, some (some 42), none, none, none⟩,
                     ⟨2, some none, none, none, none⟩],
         providers := [.inst ⟨3, some none, none, none, none⟩],
         shutdownHooks := [] },
        [0, 1], some 42) := by
  exact claim_C6_module_init_fail_fast.1 _
    [⟨0, some none, none, none, none⟩]
    ⟨1, some (some 42), none, none, none⟩
    [⟨2, some none, none, none, none⟩] 42 rfl (by decide) rfl

/-- Claim C7: `RunAppShutdown` invokes `OnApplicationShutdown` on every
implementing module, then every implementing provider, then every
registered ad-hoc shutdown hook, all in registration order, regardless
of any errors the hooks return (hook results do not appear in the
dispatch conditions at all), and the number of invocations equals the
number of registered implementing hooks. -/
theorem claim_C7_shutdown_best_effort :
    ∀ m : LifecycleManager,
      (runAppShutdown m).2 =
        implementerIds Participant.onApplicationShutdown Participant.pid m.modules
          ++ implementerIds Entry.onApplicationShutdown Entry.pid m.providers
          ++ m.shutdownHooks.map Prod.fst
      ∧ (runAppShutdown m).2.length =
          (m.modules.filter (fun x => (Participant.onApplicationShutdown x).isSome)).length
            + (m.providers.filter (fun x => (Entry.onApplicationShutdown x).isSome)).length
            + m.shutdownHooks.length
      ∧ (runAppShutdown m).1 = { m with state := .appShutdown } := by
  intro m
  refine ⟨?_, ?_, rfl⟩
  · simp only [runAppShutdown]
    rw [runBestEffort_eq_implementerIds, runBestEffort_eq_implementerIds]
  · simp only [runAppShutdown]
    rw [runBestEffort_eq_implementerIds, runBestEffort_eq_implementerIds]
    simp [implementerIds]
    omega

/-- Claim C8, counterexample: one module (id 0) and one provider (id 1),
both implementing `OnModuleDestroy`, registered in that order.  The exact
reverse of registration order would be `[1, 0]`, but `RunModuleDestroy`
invokes `[0, 1]`: it reverses modules and providers separately and runs
all module hooks before all provider hooks. -/
theorem claim_C8_counterexample :
    (runModuleDestroy
      { state := .running,
        modules := [⟨0, none, none, none, some none⟩],
        providers := [.inst ⟨1, none, none, none, some none⟩],
        shutdownHooks := [] }).2 = [0, 1]
    ∧ (runModuleDestroy
      { state := .running,
        modules := [⟨0, none, none, none, some none⟩],
        providers := [.inst ⟨1, none, none, none, some none⟩],
        shutdownHooks := [] }).2 ≠ [1, 0] := by
  exact ⟨rfl, by decide⟩

/-- Claim C8, amended: `RunModuleDestroy` invokes `OnModuleDestroy` on
the modules in reverse registration order, then on the providers in
reverse registration order — each category is reversed separately, with
all module hooks before all provider hooks, rather than one single
reversed sequence across both. -/
theorem claim_C8_amended_destroy_reverse_per_category :
    ∀ m : LifecycleManager,
      (runModuleDestroy m).2 =
        implementerIds Participant.onModuleDestroy Participant.pid m.modules.reverse
          ++ implementerIds Entry.onModuleDestroy Entry.pid m.providers.reverse
      ∧ (runModuleDestroy m).1 = { m with state := .moduleDestroy } := by
  intro m
  refine ⟨?_, rfl⟩
  simp only [runModuleDestroy]
  rw [runBestEffort_eq_implementerIds, runBestEffort_eq_implementerIds]

/-- Claim C9: `GetState` equals `ModuleInit` after `RunModuleInit`
(whether or not it errored — the state is set on entry and only
`RunAppBootstrap` advances it); after `RunAppBootstrap` the state is
`Running` exactly when every bootstrap hook succeeded, and remains
`AppBootstrap` (never `Running`) when some hook errored; and after the
full four-phase run the state is `ModuleDestroy`. -/
theorem claim_C9_lifecycle_states :
    (∀ m : LifecycleManager, getState (runModuleInit m).1 = .moduleInit)
    ∧ (∀ m : LifecycleManager,
        getState (runAppBootstrap m).1 =
          if (runAppBootstrap m).2.2 = none then .running else .appBootstrap)
    ∧ (∀ m : LifecycleManager,
        getState (runModuleDestroy
          (runAppShutdown (runAppBootstrap (runModuleInit m).1).1).1).1 = .moduleDestroy) := by
  refine ⟨?_, ?_, ?_⟩
  · intro m
    simp only [runModuleInit, getState]
    split <;> rfl
  · intro m
    have key : ∀ (r1 r2 : List Nat × Option Nat),
        (runFailFast Participant.onApplicationBootstrap Participant.pid m.modules = r1) →
        (runFailFast Entry.onApplicationBootstrap Entry.pid m.providers = r2) →
        getState (runAppBootstrap m).1 =
          if (runAppBootstrap m).2.2 = none then LifecycleState.running
          else .appBootstrap := by
      rintro ⟨ids1, err1⟩ ⟨ids2, err2⟩ h1 h2
      simp only [runAppBootstrap, getState, h1, h2]
      cases err1 <;> cases err2 <;> simp
    exact key _ _ rfl rfl
  · intro m
    rfl

/-! ## Claims C1, C2, C10 — the container -/

/-- Claim C1 (code bug in `Container.Register`): provider A produces
`named 0` and depends on `named 1`; provider B produces `named 1` and
depends on `named 0`.  The spec — and the repository's own
`TestCircularDependency` — expect the second registration to fail with
`CircularDependencyError` and the provider not to be stored.  In the
code, `checkCircularDependencies` runs **before** the provider under
registration is stored, so the walk from B's parameters reaches A and
stops: B is not in the provider map yet.  Both registration orders
therefore succeed and store the second provider. -/
theorem claim_C1_cycle_undetected :
    (register newContainer (Ty.named 0) [Ty.named 1] .singleton =
      .ok { providers := [(Ty.named 0, ⟨[Ty.named 1], .singleton, none⟩)],
            reqCaches := [], nextId := 0 })
    ∧ (register
        { providers := [(Ty.named 0, ⟨[Ty.named 1], .singleton, none⟩)],
          reqCaches := [], nextId := 0 }
        (Ty.named 1) [Ty.named 0] .singleton =
      .ok { providers := [(Ty.named 0, ⟨[Ty.named 1], .singleton, none⟩),
                          (Ty.named 1, ⟨[Ty.named 0], .singleton, none⟩)],
            reqCaches := [], nextId := 0 })
    ∧ assocGet (Ty.named 1)
        [(Ty.named 0, (⟨[Ty.named 1], .singleton, none⟩ : Prov)),
         (Ty.named 1, ⟨[Ty.named 0], .singleton, none⟩)] =
        some ⟨[Ty.named 0], .singleton, none⟩
    ∧ (register newContainer (Ty.named 1) [Ty.named 0] .singleton =
      .ok { providers := [(Ty.named 1, ⟨[Ty.named 0], .singleton, none⟩)],
            reqCaches := [], nextId := 0 })
    ∧ (register
        { providers := [(Ty.named 1, ⟨[Ty.named 0], .singleton, none⟩)],
          reqCaches := [], nextId := 0 }
        (Ty.named 0) [Ty.named 1] .singleton =
      .ok { providers := [(Ty.named 1, ⟨[Ty.named 0], .singleton, none⟩),
                          (Ty.named 0, ⟨[Ty.named 1], .singleton, none⟩)],
            reqCaches := [], nextId := 0 }) := by
  refine ⟨rfl, rfl, rfl, rfl, rfl⟩

/-- Claim C2, counterexample: a `Singleton` provider for `named 0` whose
constructor takes a `*gin.Context` parameter.  Resolving it **with** a
request context fails with the "gin.Context required but not provided"
error, because `resolveSingleton` calls `createInstance(provider, nil)`,
discarding the caller's context — so it is not the case that construction
supplies the caller's context for providers of every scope. -/
theorem claim_C2_counterexample :
    resolve 2 (Ty.named 0) (some 5)
      { providers := [(Ty.named 0, ⟨[Ty.ginCtx], .singleton, none⟩)],
        reqCaches := [], nextId := 0 } =
      .error .ginCtxRequired := by
  rfl

/-- Claim C2, amended: for `Transient` and `RequestScoped` resolutions,
`createInstance` receives the caller's request context unchanged, and
within `createInstance` a `*gin.Context` parameter receives that context
directly while every other parameter is resolved recursively with the
same context (so nested request-scoped dependencies share the one
per-context cache); `Singleton` construction, however, always passes a
nil context, whatever the caller supplied. -/
theorem claim_C2_amended_ctx_propagation :
    (∀ (fuel : Nat) (t : Ty) (ctx : Option Nat) (s : DIState) (p : Prov),
      assocGet t s.providers = some p → p.scope = .transient →
      resolve (fuel + 1) t ctx s = createInstanceWith (resolve fuel) t p.params ctx s)
    ∧ (∀ (fuel : Nat) (t : Ty) (c : Nat) (s : DIState) (p : Prov),
      assocGet t s.providers = some p → p.scope = .requestScoped → cacheGet s c t = none →
      resolve (fuel + 1) t (some c) s =
        match createInstanceWith (resolve fuel) t p.params (some c) s with
        | .error e => .error e
        | .ok (v, s1) => .ok (v, cacheSet s1 c t v))
    ∧ (∀ (fuel : Nat) (t : Ty) (ctx : Option Nat) (s : DIState) (p : Prov),
      assocGet t s.providers = some p → p.scope = .singleton → p.inst = none →
      resolve (fuel + 1) t ctx s =
        match createInstanceWith (resolve fuel) t p.params none s with
        | .error e => .error e
        | .ok (v, s1) => .ok (v, setInst t v s1))
    ∧ (∀ (res : Ty → Option Nat → DIState → Except DIErr (Value × DIState))
        (rest : List Ty) (c : Nat) (s : DIState),
      resolveArgsWith res (Ty.ginCtx :: rest) (some c) s =
        match resolveArgsWith res rest (some c) s with
        | .error e => .error e
        | .ok (vs, s1) => .ok (.ctxRef c :: vs, s1))
    ∧ (∀ (res : Ty → Option Nat → DIState → Except DIErr (Value × DIState))
        (t : Ty) (rest : List Ty) (ctx : Option Nat) (s : DIState),
      t ≠ Ty.ginCtx →
      resolveArgsWith res (t :: rest) ctx s =
        match res t ctx s with
        | .error e => .error (.argResolveFailed t e)
        | .ok (v, s1) =>
          match resolveArgsWith res rest ctx s1 with
          | .error e => .error e
          | .ok (vs, s2) => .ok (.objRef v.vid :: vs, s2)) := by
  refine ⟨?_, ?_, ?_, ?_, ?_⟩
  · intro fuel t ctx s p hget hscope
    simp only [resolve, hget, hscope]
  · intro fuel t c s p hget hscope hmiss
    simp only [resolve, hget, hscope, hmiss]
  · intro fuel t ctx s p hget hscope hinst
    simp only [resolve, hget, hscope, hinst]
  · intro res rest c s
    simp [resolveArgsWith]
  · intro res t rest ctx s ht
    simp only [resolveArgsWith, if_neg ht]

/-- Claim C2 witness: a concrete `Transient` provider taking a
`*gin.Context`: resolving with context 9 dispatches to `createInstance`
with that same context, which embeds it into the produced instance. -/
theorem claim_C2_witness :
    (resolve 2 (Ty.named 0) (some 9)
      { providers := [(Ty.named 0, ⟨[Ty.ginCtx], .transient, none⟩)],
        reqCaches := [], nextId := 0 } =
      createInstanceWith (resolve 1) (Ty.named 0) [Ty.ginCtx] (some 9)
        { providers := [(Ty.named 0, ⟨[Ty.ginCtx], .transient, none⟩)],
          reqCaches := [], nextId := 0 })
    ∧ (resolve 2 (Ty.named 0) (some 9)
      { providers := [(Ty.named 0, ⟨[Ty.ginCtx], .transient, none⟩)],
        reqCaches := [], nextId := 0 } =
      .ok (⟨0, Ty.named 0, [.ctxRef 9]⟩,
        { providers := [(Ty.named 0, ⟨[Ty.ginCtx], .transient, none⟩)],
          reqCaches := [], nextId := 1 })) := by
  constructor
  · exact claim_C2_amended_ctx_propagation.1 1 (Ty.named 0) (some 9) _
      ⟨[Ty.ginCtx], .transient, none⟩ rfl rfl
  · rfl

/-- Claim C10: with `NewDB` registered as `Singleton` (produces
`named 0`, no parameters) and `NewRepo` registered as `Transient`
(produces `named 1`, takes the DB), two resolutions of the repo type
yield two distinct instances (allocation ids 1 and 2) whose embedded DB
argument is the identical instance (allocation id 0) in both. -/
theorem claim_C10_transient_shares_singleton :
    (register newContainer (Ty.named 0) [] .singleton =
      .ok { providers := [(Ty.named 0, ⟨[], .singleton, none⟩)],
            reqCaches := [], nextId := 0 })
    ∧ (register
        { providers := [(Ty.named 0, ⟨[], .singleton, none⟩)],
          reqCaches := [], nextId := 0 }
        (Ty.named 1) [Ty.named 0] .transient =
      .ok { providers := [(Ty.named 0, ⟨[], .singleton, none⟩),
                          (Ty.named 1, ⟨[Ty.named 0], .transient, none⟩)],
            reqCaches := [], nextId := 0 })
    ∧ (resolve 3 (Ty.named 1) none
        { providers := [(Ty.named 0, ⟨[], .singleton, none⟩),
                        (Ty.named 1, ⟨[Ty.named 0], .transient, none⟩)],
          reqCaches := [], nextId := 0 } =
      .ok (⟨1, Ty.named 1, [.objRef 0]⟩,
        { providers := [(Ty.named 0, ⟨[], .singleton, some ⟨0, Ty.named 0, []⟩⟩),
                        (Ty.named 1, ⟨[Ty.named 0], .transient, none⟩)],
          reqCaches := [], nextId := 2 }))
    ∧ (resolve 3 (Ty.named 1) none
        { providers := [(Ty.named 0, ⟨[], .singleton, some ⟨0, Ty.named 0, []⟩⟩),
                        (Ty.named 1, ⟨[Ty.named 0], .transient, none⟩)],
          reqCaches := [], nextId := 2 } =
      .ok (⟨2, Ty.named 1, [.objRef 0]⟩,
        { providers := [(Ty.named 0, ⟨[], .singleton, some ⟨0, Ty.named 0, []⟩⟩),
                        (Ty.named 1, ⟨[Ty.named 0], .transient, none⟩)],
          reqCaches := [], nextId := 3 }))
    ∧ (⟨1, Ty.named 1, [.objRef 0]⟩ : Value) ≠ ⟨2, Ty.named 1, [.objRef 0]⟩
    ∧ Value.args ⟨1, Ty.named 1, [.objRef 0]⟩ = Value.args ⟨2, Ty.named 1, [.objRef 0]⟩ := by
  refine ⟨rfl, rfl, rfl, rfl, by decide, rfl⟩

/-! ## Allocation bounds for `resolve`

Every instance stored in a container state carries an allocation id below
the allocation counter, `resolve` only ever allocates fresh ids, and the
shapes (parameters and scope) of registered providers are never changed
by resolution.  These facts give instance-identity arguments for the
scope claims. -/

/-- All cached singleton instances have allocation id below `n`. -/
def provsBound (n : Nat) (l : List (Ty × Prov)) : Bool :=
  l.all fun pr =>
    match pr.2.inst with
    | none => true
    | some v => v.vid < n

/-- All request-scoped cached instances have allocation id below `n`. -/
def cachesBound (n : Nat) (l : List (Nat × List (Ty × Value))) : Bool :=
  l.all fun cc => cc.2.all fun tv => tv.2.vid < n

/-- All instances stored in the state have allocation id below the
allocation counter. -/
def stateBound (s : DIState) : Bool :=
  provsBound s.nextId s.providers && cachesBound s.nextId s.reqCaches

theorem assocGet_mem [DecidableEq α] {k : α} {b : β} :
    ∀ {l : List (α × β)}, assocGet k l = some b → (k, b) ∈ l := by
  intro l
  induction l with
  | nil => intro h; simp [assocGet] at h
  | cons x rest ih =>
    intro h
    obtain ⟨a, c⟩ := x
    by_cases ha : a = k
    · subst ha
      simp [assocGet] at h
      subst h
      exact List.mem_cons_self _ _
    · simp [assocGet, ha] at h
      exact List.mem_cons_of_mem _ (ih h)

theorem assocGet_assocSet_same [DecidableEq α] {k : α} {v : β} :
    ∀ l : List (α × β), assocGet k (assocSet k v l) = some v := by
  intro l
  induction l with
  | nil => simp [assocGet, assocSet]
  | cons x rest ih =>
    obtain ⟨a, c⟩ := x
    by_cases ha : a = k
    · subst ha
      simp [assocGet, assocSet]
    · simp [assocGet, assocSet, ha, ih]

theorem provsBound_mono {n m : Nat} (hnm : n ≤ m) :
    ∀ {l : List (Ty × Prov)}, provsBound n l = true → provsBound m l = true := by
  intro l h
  simp only [provsBound, List.all_eq_true] at h ⊢
  intro pr hpr
  have := h pr hpr
  cases hi : pr.2.inst with
  | none => simp [hi]
  | some v => rw [hi] at this; simp at this ⊢; omega

theorem cachesBound_mono {n m : Nat} (hnm : n ≤ m) :
    ∀ {l : List (Nat × List (Ty × Value))}, cachesBound n l = true → cachesBound m l = true := by
  intro l h
  simp only [cachesBound, List.all_eq_true] at h ⊢
  intro cc hcc tv htv
  have := h cc hcc tv htv
  simp at this ⊢
  omega

theorem provsBound_inst_lt {n : Nat} {l : List (Ty × Prov)} {t : Ty} {p : Prov} {v : Value}
    (hb : provsBound n l = true) (hg : assocGet t l = some p) (hi : p.inst = some v) :
    v.vid < n := by
  have hmem := assocGet_mem hg
  simp only [provsBound, List.all_eq_true] at hb
  have := hb (t, p) hmem
  rw [hi] at this
  simpa using this

theorem cachesBound_get_lt {n : Nat} {l : List (Nat × List (Ty × Value))} {c : Nat}
    {m : List (Ty × Value)} {t : Ty} {v : Value}
    (hb : cachesBound n l = true) (hg : assocGet c l = some m) (hv : assocGet t m = some v) :
    v.vid < n := by
  have hmem := assocGet_mem hg
  have hmem2 := assocGet_mem hv
  simp only [cachesBound, List.all_eq_true] at hb
  have := hb (c, m) hmem (t, v) hmem2
  simpa using this

theorem provsBound_setProvInst {n : Nat} {v : Value} {t : Ty} (hv : v.vid < n) :
    ∀ {l : List (Ty × Prov)}, provsBound n l = true →
      provsBound n (setProvInst t v l) = true := by
  intro l
  induction l with
  | nil => intro h; exact h
  | cons x rest ih =>
    intro h
    obtain ⟨a, p⟩ := x
    simp only [provsBound, List.all_eq_true] at h
    have hx := h (a, p) (List.mem_cons_self _ _)
    have hrest : provsBound n rest = true := by
      simp only [provsBound, List.all_eq_true]
      exact fun pr hpr => h pr (List.mem_cons_of_mem _ hpr)
    by_cases ha : a = t
    · subst ha
      have hset : setProvInst a v ((a, p) :: rest) = (a, { p with inst := some v }) :: rest := by
        simp [setProvInst]
      rw [hset]
      simp only [provsBound, List.all_cons, Bool.and_eq_true]
      exact ⟨by simpa using hv, by simpa [provsBound] using hrest⟩
    · have hset : setProvInst t v ((a, p) :: rest) = (a, p) :: setProvInst t v rest := by
        simp [setProvInst, ha]
      rw [hset]
      simp only [provsBound, List.all_cons, Bool.and_eq_true]
      exact ⟨hx, by simpa [provsBound] using ih hrest⟩

theorem all_assocSet {f : α × β → Bool} [DecidableEq α] {k : α} {v : β}
    (hkv : f (k, v) = true) :
    ∀ {l : List (α × β)}, l.all f = true → (assocSet k v l).all f = true := by
  intro l
  induction l with
  | nil => intro _; simpa [assocSet] using hkv
  | cons x rest ih =>
    intro h
    obtain ⟨a, b⟩ := x
    simp only [List.all_cons, Bool.and_eq_true] at h
    by_cases ha : a = k
    · subst ha
      have hset : assocSet a v ((a, b) :: rest) = (a, v) :: rest := by simp [assocSet]
      rw [hset]
      simp only [List.all_cons, Bool.and_eq_true]
      exact ⟨hkv, h.2⟩
    · have hset : assocSet k v ((a, b) :: rest) = (a, b) :: assocSet k v rest := by
        simp [assocSet, ha]
      rw [hset]
      simp only [List.all_cons, Bool.and_eq_true]
      exact ⟨h.1, ih h.2⟩

theorem cachesBound_cacheSet {s : DIState} {c : Nat} {t : Ty} {v : Value}
    (hb : cachesBound s.nextId s.reqCaches = true) (hv : v.vid < s.nextId) :
    cachesBound s.nextId (cacheSet s c t v).reqCaches = true := by
  simp only [cacheSet]
  have hmOld : ∀ m : List (Ty × Value),
      assocGet c s.reqCaches = some m ∨ m = [] →
      (m.all fun tv => tv.2.vid < s.nextId) = true := by
    intro m hm
    rcases hm with hm | hm
    · simp only [cachesBound, List.all_eq_true] at hb
      have := hb (c, m) (assocGet_mem hm)
      simpa using this
    · simp [hm]
  cases hg : assocGet c s.reqCaches with
  | none =>
    simp only [hg]
    exact all_assocSet (by
      simp only []
      exact all_assocSet (by simpa using hv) (hmOld [] (Or.inr rfl))) hb
  | some m =>
    simp only [hg]
    exact all_assocSet (by
      simp only []
      exact all_assocSet (by simpa using hv) (hmOld m (Or.inl hg))) hb

theorem cacheGet_cacheSet_same {s : DIState} {c : Nat} {t : Ty} {v : Value} :
    cacheGet (cacheSet s c t v) c t = some v := by
  simp only [cacheGet, cacheSet, assocGet_assocSet_same]

theorem setProvInst_get {t : Ty} {v : Value} {k : Ty} {p : Prov} :
    ∀ {l : List (Ty × Prov)}, assocGet k l = some p →
      ∃ q, assocGet k (setProvInst t v l) = some q ∧ q.params = p.params ∧ q.scope = p.scope := by
  intro l
  induction l with
  | nil => intro h; simp [assocGet] at h
  | cons x rest ih =>
    intro h
    obtain ⟨a, r⟩ := x
    by_cases hak : a = k
    · subst hak
      have h2 : r = p := by simpa [assocGet] using h
      by_cases hat : a = t
      · subst hat
        refine ⟨{ r with inst := some v }, ?_, ?_, ?_⟩
        · simp [setProvInst, assocGet]
        · simp [h2]
        · simp [h2]
      · refine ⟨r, ?_, ?_, ?_⟩
        · simp [setProvInst, hat, assocGet]
        · simp [h2]
        · simp [h2]
    · have h2 : assocGet k rest = some p := by simpa [assocGet, hak] using h
      by_cases hat : a = t
      · subst hat
        exact ⟨p, by simpa [setProvInst, assocGet, hak] using h2, rfl, rfl⟩
      · obtain ⟨q, hq, hq1, hq2⟩ := ih h2
        exact ⟨q, by simpa [setProvInst, hat, assocGet, hak] using hq, hq1, hq2⟩

theorem resolveArgsWith_nextId_le
    (res : Ty → Option Nat → DIState → Except DIErr (Value × DIState))
    (hres : ∀ t ctx s v s1, res t ctx s = .ok (v, s1) → s.nextId ≤ s1.nextId) :
    ∀ (params : List Ty) (ctx : Option Nat) (s : DIState) (vs : List VRef) (s1 : DIState),
      resolveArgsWith res params ctx s = .ok (vs, s1) → s.nextId ≤ s1.nextId := by
  intro params
  induction params with
  | nil =>
    intro ctx s vs s1 h
    simp only [resolveArgsWith, Except.ok.injEq, Prod.mk.injEq] at h
    exact h.2 ▸ le_refl _
  | cons t rest ih =>
    intro ctx s vs s1 h
    simp only [resolveArgsWith] at h
    split at h
    · split at h
      · simp at h
      · rename_i c
        split at h
        · simp at h
        · rename_i vs1 sA hh
          simp only [Except.ok.injEq, Prod.mk.injEq] at h
          obtain ⟨-, rfl⟩ := h
          exact ih (some c) s vs1 sA hh
    · split at h
      · simp at h
      · rename_i v0 sMid hr
        split at h
        · simp at h
        · rename_i vs2 sB hh
          simp only [Except.ok.injEq, Prod.mk.injEq] at h
          obtain ⟨-, rfl⟩ := h
          exact le_trans (hres t ctx s v0 sMid hr) (ih ctx sMid vs2 sB hh)

theorem createInstanceWith_ok
    (res : Ty → Option Nat → DIState → Except DIErr (Value × DIState))
    (hres : ∀ t ctx s v s1, res t ctx s = .ok (v, s1) → s.nextId ≤ s1.nextId)
    {ret : Ty} {params : List Ty} {ctx : Option Nat} {s : DIState} {v : Value} {s1 : DIState}
    (h : createInstanceWith res ret params ctx s = .ok (v, s1)) :
    s.nextId ≤ v.vid ∧ s1.nextId = v.vid + 1 := by
  simp only [createInstanceWith] at h
  split at h
  · simp at h
  · rename_i vs sA ha
    simp only [Except.ok.injEq, Prod.mk.injEq] at h
    obtain ⟨rfl, rfl⟩ := h
    exact ⟨resolveArgsWith_nextId_le res hres params ctx s vs sA ha, rfl⟩

theorem resolve_nextId_le :
    ∀ (fuel : Nat) (t : Ty) (ctx : Option Nat) (s : DIState) (v : Value) (s1 : DIState),
      resolve fuel t ctx s = .ok (v, s1) → s.nextId ≤ s1.nextId := by
  intro fuel
  induction fuel with
  | zero => intro t ctx s v s1 h; simp [resolve] at h
  | succ f ih =>
    intro t ctx s v s1 h
    simp only [resolve] at h
    split at h
    · simp at h
    · rename_i p hg
      split at h
      · split at h
        · rename_i v0 hi
          simp only [Except.ok.injEq, Prod.mk.injEq] at h
          obtain ⟨rfl, rfl⟩ := h
          exact le_refl _
        · rename_i hi
          split at h
          · simp at h
          · rename_i v0 sC hc
            simp only [Except.ok.injEq, Prod.mk.injEq] at h
            obtain ⟨rfl, rfl⟩ := h
            obtain ⟨h1, h2⟩ := createInstanceWith_ok (resolve f) ih hc
            have h3 : (setInst t v0 sC).nextId = sC.nextId := rfl
            omega
      · obtain ⟨h1, h2⟩ := createInstanceWith_ok (resolve f) ih h
        omega
      · split at h
        · simp at h
        · rename_i c
          split at h
          · rename_i v0 hcache
            simp only [Except.ok.injEq, Prod.mk.injEq] at h
            obtain ⟨rfl, rfl⟩ := h
            exact le_refl _
          · rename_i hcache
            split at h
            · simp at h
            · rename_i v0 sC hc
              simp only [Except.ok.injEq, Prod.mk.injEq] at h
              obtain ⟨rfl, rfl⟩ := h
              obtain ⟨h1, h2⟩ := createInstanceWith_ok (resolve f) ih hc
              have h3 : (cacheSet sC c t v0).nextId = sC.nextId := rfl
              omega

theorem stateBound_iff {s : DIState} :
    stateBound s = true ↔
      (provsBound s.nextId s.providers = true ∧ cachesBound s.nextId s.reqCaches = true) := by
  simp [stateBound, Bool.and_eq_true]

theorem stateBound_mono_nextId {s : DIState} {m : Nat} (hm : s.nextId ≤ m)
    (h : stateBound s = true) : stateBound { s with nextId := m } = true := by
  rcases stateBound_iff.1 h with ⟨hp, hc⟩
  exact stateBound_iff.2 ⟨provsBound_mono hm hp, cachesBound_mono hm hc⟩

theorem setInst_stateBound {t : Ty} {v : Value} {s : DIState}
    (h : stateBound s = true) (hv : v.vid < s.nextId) :
    stateBound (setInst t v s) = true := by
  rcases stateBound_iff.1 h with ⟨hp, hc⟩
  exact stateBound_iff.2 ⟨provsBound_setProvInst hv hp, hc⟩

theorem cacheSet_stateBound {s : DIState} {c : Nat} {t : Ty} {v : Value}
    (h : stateBound s = true) (hv : v.vid < s.nextId) :
    stateBound (cacheSet s c t v) = true := by
  rcases stateBound_iff.1 h with ⟨hp, hc⟩
  exact stateBound_iff.2 ⟨hp, cachesBound_cacheSet hc hv⟩

theorem cacheGet_lt {s : DIState} {c : Nat} {t : Ty} {v : Value}
    (hb : cachesBound s.nextId s.reqCaches = true) (h : cacheGet s c t = some v) :
    v.vid < s.nextId := by
  simp only [cacheGet] at h
  cases hg : assocGet c s.reqCaches with
  | none => rw [hg] at h; simp at h
  | some m => rw [hg] at h; exact cachesBound_get_lt hb hg h

theorem resolveArgsWith_stateBound
    (res : Ty → Option Nat → DIState → Except DIErr (Value × DIState))
    (hres : ∀ t ctx s v s1, res t ctx s = .ok (v, s1) →
      stateBound s = true → stateBound s1 = true) :
    ∀ (params : List Ty) (ctx : Option Nat) (s : DIState) (vs : List VRef) (s1 : DIState),
      resolveArgsWith res params ctx s = .ok (vs, s1) →
      stateBound s = true → stateBound s1 = true := by
  intro params
  induction params with
  | nil =>
    intro ctx s vs s1 h hsb
    simp only [resolveArgsWith, Except.ok.injEq, Prod.mk.injEq] at h
    exact h.2 ▸ hsb
  | cons t rest ih =>
    intro ctx s vs s1 h hsb
    simp only [resolveArgsWith] at h
    split at h
    · split at h
      · simp at h
      · rename_i c
        split at h
        · simp at h
        · rename_i vs1 sA hh
          simp only [Except.ok.injEq, Prod.mk.injEq] at h
          obtain ⟨-, rfl⟩ := h
          exact ih (some c) s vs1 sA hh hsb
    · split at h
      · simp at h
      · rename_i v0 sMid hr
        split at h
        · simp at h
        · rename_i vs2 sB hh
          simp only [Except.ok.injEq, Prod.mk.injEq] at h
          obtain ⟨-, rfl⟩ := h
          exact ih ctx sMid vs2 sB hh (hres t ctx s v0 sMid hr hsb)

theorem createInstanceWith_stateBound
    (res : Ty → Option Nat → DIState → Except DIErr (Value × DIState))
    (hres_sb : ∀ t ctx s v s1, res t ctx s = .ok (v, s1) →
      stateBound s = true → stateBound s1 = true)
    {ret : Ty} {params : List Ty} {ctx : Option Nat} {s : DIState} {v : Value} {s1 : DIState}
    (h : createInstanceWith res ret params ctx s = .ok (v, s1))
    (hsb : stateBound s = true) : stateBound s1 = true := by
  simp only [createInstanceWith] at h
  split at h
  · simp at h
  · rename_i vs sA ha
    simp only [Except.ok.injEq, Prod.mk.injEq] at h
    obtain ⟨-, rfl⟩ := h
    exact stateBound_mono_nextId (Nat.le_succ _)
      (resolveArgsWith_stateBound res hres_sb params ctx s vs sA ha hsb)

theorem resolve_stateBound :
    ∀ (fuel : Nat) (t : Ty) (ctx : Option Nat) (s : DIState) (v : Value) (s1 : DIState),
      resolve fuel t ctx s = .ok (v, s1) → stateBound s = true → stateBound s1 = true := by
  intro fuel
  induction fuel with
  | zero => intro t ctx s v s1 h hsb; simp [resolve] at h
  | succ f ih =>
    intro t ctx s v s1 h hsb
    simp only [resolve] at h
    split at h
    · simp at h
    · rename_i p hg
      split at h
      · split at h
        · rename_i v0 hi
          simp only [Except.ok.injEq, Prod.mk.injEq] at h
          obtain ⟨rfl, rfl⟩ := h
          exact hsb
        · rename_i hi
          split at h
          · simp at h
          · rename_i v0 sC hc
            simp only [Except.ok.injEq, Prod.mk.injEq] at h
            obtain ⟨rfl, rfl⟩ := h
            obtain ⟨h1, h2⟩ := createInstanceWith_ok (resolve f) (resolve_nextId_le f) hc
            exact setInst_stateBound
              (createInstanceWith_stateBound (resolve f) ih hc hsb)
              (by omega)
      · exact createInstanceWith_stateBound (resolve f) ih h hsb
      · split at h
        · simp at h
        · rename_i c
          split at h
          · rename_i v0 hcache
            simp only [Except.ok.injEq, Prod.mk.injEq] at h
            obtain ⟨rfl, rfl⟩ := h
            exact hsb
          · rename_i hcache
            split at h
            · simp at h
            · rename_i v0 sC hc
              simp only [Except.ok.injEq, Prod.mk.injEq] at h
              obtain ⟨rfl, rfl⟩ := h
              obtain ⟨h1, h2⟩ := createInstanceWith_ok (resolve f) (resolve_nextId_le f) hc
              exact cacheSet_stateBound
                (createInstanceWith_stateBound (resolve f) ih hc hsb)
                (by omega)

theorem resolve_val_lt :
    ∀ (fuel : Nat) (t : Ty) (ctx : Option Nat) (s : DIState) (v : Value) (s1 : DIState),
      resolve fuel t ctx s = .ok (v, s1) → stateBound s = true → v.vid < s1.nextId := by
  intro fuel t ctx s v s1 h hsb
  cases fuel with
  | zero => simp [resolve] at h
  | succ f =>
    simp only [resolve] at h
    split at h
    · simp at h
    · rename_i p hg
      split at h
      · split at h
        · rename_i v0 hi
          simp only [Except.ok.injEq, Prod.mk.injEq] at h
          obtain ⟨rfl, rfl⟩ := h
          exact provsBound_inst_lt (stateBound_iff.1 hsb).1 hg hi
        · rename_i hi
          split at h
          · simp at h
          · rename_i v0 sC hc
            simp only [Except.ok.injEq, Prod.mk.injEq] at h
            obtain ⟨rfl, rfl⟩ := h
            obtain ⟨h1, h2⟩ := createInstanceWith_ok (resolve f) (resolve_nextId_le f) hc
            have h3 : (setInst t v0 sC).nextId = sC.nextId := rfl
            omega
      · obtain ⟨h1, h2⟩ := createInstanceWith_ok (resolve f) (resolve_nextId_le f) h
        omega
      · split at h
        · simp at h
        · rename_i c
          split at h
          · rename_i v0 hcache
            simp only [Except.ok.injEq, Prod.mk.injEq] at h
            obtain ⟨rfl, rfl⟩ := h
            exact cacheGet_lt (stateBound_iff.1 hsb).2 hcache
          · rename_i hcache
            split at h
            · simp at h
            · rename_i v0 sC hc
              simp only [Except.ok.injEq, Prod.mk.injEq] at h
              obtain ⟨rfl, rfl⟩ := h
              obtain ⟨h1, h2⟩ := createInstanceWith_ok (resolve f) (resolve_nextId_le f) hc
              have h3 : (cacheSet sC c t v0).nextId = sC.nextId := rfl
              omega

theorem resolveArgsWith_provider_shape
    (res : Ty → Option Nat → DIState → Except DIErr (Value × DIState))
    (hres : ∀ t ctx s v s1, res t ctx s = .ok (v, s1) →
      ∀ k p, assocGet k s.providers = some p →
        ∃ q, assocGet k s1.providers = some q ∧ q.params = p.params ∧ q.scope = p.scope) :
    ∀ (params : List Ty) (ctx : Option Nat) (s : DIState) (vs : List VRef) (s1 : DIState),
      resolveArgsWith res params ctx s = .ok (vs, s1) →
      ∀ k p, assocGet k s.providers = some p →
        ∃ q, assocGet k s1.providers = some q ∧ q.params = p.params ∧ q.scope = p.scope := by
  intro params
  induction params with
  | nil =>
    intro ctx s vs s1 h k p hk
    simp only [resolveArgsWith, Except.ok.injEq, Prod.mk.injEq] at h
    exact h.2 ▸ ⟨p, hk, rfl, rfl⟩
  | cons t rest ih =>
    intro ctx s vs s1 h k p hk
    simp only [resolveArgsWith] at h
    split at h
    · split at h
      · simp at h
      · rename_i c
        split at h
        · simp at h
        · rename_i vs1 sA hh
          simp only [Except.ok.injEq, Prod.mk.injEq] at h
          obtain ⟨-, rfl⟩ := h
          exact ih (some c) s vs1 sA hh k p hk
    · split at h
      · simp at h
      · rename_i v0 sMid hr
        split at h
        · simp at h
        · rename_i vs2 sB hh
          simp only [Except.ok.injEq, Prod.mk.injEq] at h
          obtain ⟨-, rfl⟩ := h
          obtain ⟨q, hq, hq1, hq2⟩ := hres t ctx s v0 sMid hr k p hk
          obtain ⟨r, hr2, hr3, hr4⟩ := ih ctx sMid vs2 sB hh k q hq
          exact ⟨r, hr2, hr3.trans hq1, hr4.trans hq2⟩

theorem createInstanceWith_provider_shape
    (res : Ty → Option Nat → DIState → Except DIErr (Value × DIState))
    (hres : ∀ t ctx s v s1, res t ctx s = .ok (v, s1) →
      ∀ k p, assocGet k s.providers = some p →
        ∃ q, assocGet k s1.providers = some q ∧ q.params = p.params ∧ q.scope = p.scope)
    {ret : Ty} {params : List Ty} {ctx : Option Nat} {s : DIState} {v : Value} {s1 : DIState}
    (h : createInstanceWith res ret params ctx s = .ok (v, s1)) :
    ∀ k p, assocGet k s.providers = some p →
      ∃ q, assocGet k s1.providers = some q ∧ q.params = p.params ∧ q.scope = p.scope := by
  intro k p hk
  simp only [createInstanceWith] at h
  split at h
  · simp at h
  · rename_i vs sA ha
    simp only [Except.ok.injEq, Prod.mk.injEq] at h
    obtain ⟨-, rfl⟩ := h
    exact resolveArgsWith_provider_shape res hres params ctx s vs sA ha k p hk

theorem resolve_provider_shape :
    ∀ (fuel : Nat) (t : Ty) (ctx : Option Nat) (s : DIState) (v : Value) (s1 : DIState),
      resolve fuel t ctx s = .ok (v, s1) →
      ∀ k p, assocGet k s.providers = some p →
        ∃ q, assocGet k s1.providers = some q ∧ q.params = p.params ∧ q.scope = p.scope := by
  intro fuel
  induction fuel with
  | zero => intro t ctx s v s1 h; simp [resolve] at h
  | succ f ih =>
    intro t ctx s v s1 h k p hk
    simp only [resolve] at h
    split at h
    · simp at h
    · rename_i p0 hg
      split at h
      · split at h
        · rename_i v0 hi
          simp only [Except.ok.injEq, Prod.mk.injEq] at h
          obtain ⟨rfl, rfl⟩ := h
          exact ⟨p, hk, rfl, rfl⟩
        · rename_i hi
          split at h
          · simp at h
          · rename_i v0 sC hc
            simp only [Except.ok.injEq, Prod.mk.injEq] at h
            obtain ⟨rfl, rfl⟩ := h
            obtain ⟨q, hq, hq1, hq2⟩ :=
              createInstanceWith_provider_shape (resolve f) ih hc k p hk
            obtain ⟨r, hr2, hr3, hr4⟩ := setProvInst_get hq
            exact ⟨r, hr2, hr3.trans hq1, hr4.trans hq2⟩
      · exact createInstanceWith_provider_shape (resolve f) ih h k p hk
      · split at h
        · simp at h
        · rename_i c
          split at h
          · rename_i v0 hcache
            simp only [Except.ok.injEq, Prod.mk.injEq] at h
            obtain ⟨rfl, rfl⟩ := h
            exact ⟨p, hk, rfl, rfl⟩
          · rename_i hcache
            split at h
            · simp at h
            · rename_i v0 sC hc
              simp only [Except.ok.injEq, Prod.mk.injEq] at h
              obtain ⟨rfl, rfl⟩ := h
              exact createInstanceWith_provider_shape (resolve f) ih hc k p hk

/-- Claim C4: for a `RequestScoped` provider: (1) once a resolution with
context `a` has succeeded, resolving again with the same context returns
the identical instance and leaves the state unchanged; (2) a subsequent
resolution with a context whose cache does not yet hold the type (in
particular any fresh, distinct context) returns a distinct instance;
(3) resolving with a nil context fails with `ContextRequiredError`,
returning no instance at all. -/
theorem claim_C4_request_scoped :
    (∀ (fuel fuel2 : Nat) (t : Ty) (a : Nat) (s : DIState) (p : Prov) (v1 : Value)
        (s1 : DIState),
      assocGet t s.providers = some p → p.scope = .requestScoped →
      resolve fuel t (some a) s = .ok (v1, s1) →
      resolve (fuel2 + 1) t (some a) s1 = .ok (v1, s1))
    ∧ (∀ (fuel fuel2 : Nat) (t : Ty) (a b : Nat) (s : DIState) (p : Prov) (v1 : Value)
        (s1 : DIState) (v2 : Value) (s2 : DIState),
      assocGet t s.providers = some p → p.scope = .requestScoped →
      stateBound s = true →
      resolve fuel t (some a) s = .ok (v1, s1) →
      cacheGet s1 b t = none →
      resolve fuel2 t (some b) s1 = .ok (v2, s2) →
      v1 ≠ v2)
    ∧ (∀ (fuel : Nat) (t : Ty) (s : DIState) (p : Prov),
      assocGet t s.providers = some p → p.scope = .requestScoped →
      resolve (fuel + 1) t none s = .error .contextRequired) := by
  refine ⟨?_, ?_, ?_⟩
  · intro fuel fuel2 t a s p v1 s1 hget hscope h
    cases fuel with
    | zero => simp [resolve] at h
    | succ f =>
      simp only [resolve, hget, hscope] at h
      split at h
      · rename_i v0 hcache
        simp only [Except.ok.injEq, Prod.mk.injEq] at h
        obtain ⟨rfl, rfl⟩ := h
        simp only [resolve, hget, hscope, hcache]
      · rename_i hcache
        split at h
        · simp at h
        · rename_i v0 sC hc
          simp only [Except.ok.injEq, Prod.mk.injEq] at h
          obtain ⟨rfl, rfl⟩ := h
          obtain ⟨q, hq, hq1, hq2⟩ :=
            createInstanceWith_provider_shape (resolve f)
              (fun t1 c1 s1 v1 s2 hh => resolve_provider_shape f t1 c1 s1 v1 s2 hh)
              hc t p hget
          simp only [resolve,
            show (cacheSet sC a t v0).providers = sC.providers from rfl, hq, hq2, hscope,
            cacheGet_cacheSet_same]
  · intro fuel fuel2 t a b s p v1 s1 v2 s2 hget hscope hsb h1 hmiss h2
    have hv1 : v1.vid < s1.nextId := resolve_val_lt fuel t (some a) s v1 s1 h1 hsb
    cases fuel2 with
    | zero => simp [resolve] at h2
    | succ f2 =>
      obtain ⟨q, hq, hq1, hq2⟩ := resolve_provider_shape fuel t (some a) s v1 s1 h1 t p hget
      simp only [resolve, hq, hq2, hscope, hmiss] at h2
      split at h2
      · simp at h2
      · rename_i v0 sC hc
        simp only [Except.ok.injEq, Prod.mk.injEq] at h2
        obtain ⟨rfl, rfl⟩ := h2
        obtain ⟨hge, -⟩ := createInstanceWith_ok (resolve f2) (resolve_nextId_le f2) hc
        intro heq
        have : v1.vid = v0.vid := congrArg Value.vid heq
        omega
  · intro fuel t s p hget hscope
    simp only [resolve, hget, hscope]

/-- Claim C4 witness: a concrete `RequestScoped` provider for `named 0`:
resolving twice with context 0 returns the identical instance and state;
the instance for context 1 is distinct (allocation ids 0 vs 1); and nil
context fails with `ContextRequiredError`. -/
theorem claim_C4_witness :
    (resolve 1 (Ty.named 0) (some 0)
      { providers := [(Ty.named 0, ⟨[], .requestScoped, none⟩)],
        reqCaches := [(0, [(Ty.named 0, ⟨0, Ty.named 0, []⟩)])], nextId := 1 } =
      .ok (⟨0, Ty.named 0, []⟩,
        { providers := [(Ty.named 0, ⟨[], .requestScoped, none⟩)],
          reqCaches := [(0, [(Ty.named 0, ⟨0, Ty.named 0, []⟩)])], nextId := 1 }))
    ∧ ((⟨0, Ty.named 0, []⟩ : Value) ≠ ⟨1, Ty.named 0, []⟩)
    ∧ (resolve 1 (Ty.named 0) none
      { providers := [(Ty.named 0, ⟨[], .requestScoped, none⟩)],
        reqCaches := [], nextId := 0 } = .error .contextRequired) := by
  refine ⟨?_, ?_, ?_⟩
  · exact claim_C4_request_scoped.1 1 0 (Ty.named 0) 0
      { providers := [(Ty.named 0, ⟨[], .requestScoped, none⟩)],
        reqCaches := [], nextId := 0 }
      ⟨[], .requestScoped, none⟩ ⟨0, Ty.named 0, []⟩ _ rfl rfl rfl
  · exact claim_C4_request_scoped.2.1 1 1 (Ty.named 0) 0 1
      { providers := [(Ty.named 0, ⟨[], .requestScoped, none⟩)],
        reqCaches := [], nextId := 0 }
      ⟨[], .requestScoped, none⟩ ⟨0, Ty.named 0, []⟩
      { providers := [(Ty.named 0, ⟨[], .requestScoped, none⟩)],
        reqCaches := [(0, [(Ty.named 0, ⟨0, Ty.named 0, []⟩)])], nextId := 1 }
      ⟨1, Ty.named 0, []⟩
      { providers := [(Ty.named 0, ⟨[], .requestScoped, none⟩)],
        reqCaches := [(0, [(Ty.named 0, ⟨0, Ty.named 0, []⟩)]),
                      (1, [(Ty.named 0, ⟨1, Ty.named 0, []⟩)])], nextId := 2 }
      rfl rfl rfl rfl rfl rfl
  · exact claim_C4_request_scoped.2.2 0 (Ty.named 0)
      { providers := [(Ty.named 0, ⟨[], .requestScoped, none⟩)],
        reqCaches := [], nextId := 0 }
      ⟨[], .requestScoped, none⟩ rfl rfl

/-! ## Claim C5 — concurrent singleton construction -/

/-- Thread `t` holds the provider's write lock: it is between a successful
`Lock()` and the matching `Unlock()`. -/
def holdsWrite (s : SingletonSt) (t : Nat) : Prop :=
  s.pcs t = .recheck ∨ s.pcs t = .constructing

/-- The inductive invariant of the double-checked locking protocol:
the writer flag is accurate, at most one thread holds the write lock, a
constructing thread sees no published instance, the construction count
matches whether an instance has been published, and every finished
thread returned the published instance. -/
def SInv (s : SingletonSt) : Prop :=
  (s.writerHeld = false → ∀ t, ¬ holdsWrite s t)
  ∧ (∀ t u, holdsWrite s t → holdsWrite s u → t = u)
  ∧ (∀ t, s.pcs t = .constructing → s.inst = none)
  ∧ (s.constructions = if s.inst.isSome then 1 else 0)
  ∧ (∀ t v, s.pcs t = .finished v → s.inst = some v)

theorem setPC_same {f : Nat → SPC} {t : Nat} {p : SPC} : setPC f t p t = p := by
  simp [setPC]

theorem setPC_other {f : Nat → SPC} {t u : Nat} {p : SPC} (h : u ≠ t) :
    setPC f t p u = f u := by
  simp [setPC, h]

theorem sInv_init : SInv singletonInit := by
  refine ⟨?_, ?_, ?_, ?_, ?_⟩ <;> simp [singletonInit, holdsWrite]

theorem sInv_step {s s1 : SingletonSt} (hs : SInv s) (st : SStep s s1) : SInv s1 := by
  obtain ⟨h1, h2, h3, h4, h5⟩ := hs
  cases st with
  | rlock t h hw =>
    refine ⟨?_, ?_, ?_, h4, ?_⟩
    · intro hwf u hold
      by_cases hu : u = t
      · subst hu; simp [holdsWrite, setPC_same] at hold
      · exact h1 hwf u (by simpa [holdsWrite, setPC_other hu] using hold)
    · intro u u' hu hu'
      by_cases h0 : u = t
      · subst h0; simp [holdsWrite, setPC_same] at hu
      · by_cases h0' : u' = t
        · subst h0'; simp [holdsWrite, setPC_same] at hu'
        · exact h2 u u' (by simpa [holdsWrite, setPC_other h0] using hu)
            (by simpa [holdsWrite, setPC_other h0'] using hu')
    · intro u hc
      by_cases hu : u = t
      · subst hu; simp [setPC_same] at hc
      · exact h3 u (by simpa [setPC_other hu] using hc)
    · intro u v hf
      by_cases hu : u = t
      · subst hu; simp [setPC_same] at hf
      · exact h5 u v (by simpa [setPC_other hu] using hf)
  | readHit t v h hv =>
    refine ⟨?_, ?_, ?_, h4, ?_⟩
    · intro hwf u hold
      by_cases hu : u = t
      · subst hu; simp [holdsWrite, setPC_same] at hold
      · exact h1 hwf u (by simpa [holdsWrite, setPC_other hu] using hold)
    · intro u u' hu hu'
      by_cases h0 : u = t
      · subst h0; simp [holdsWrite, setPC_same] at hu
      · by_cases h0' : u' = t
        · subst h0'; simp [holdsWrite, setPC_same] at hu'
        · exact h2 u u' (by simpa [holdsWrite, setPC_other h0] using hu)
            (by simpa [holdsWrite, setPC_other h0'] using hu')
    · intro u hc
      by_cases hu : u = t
      · subst hu; simp [setPC_same] at hc
      · exact h3 u (by simpa [setPC_other hu] using hc)
    · intro u w hf
      by_cases hu : u = t
      · subst hu
        have hf2 : SPC.finished v = SPC.finished w := by simpa [setPC_same] using hf
        cases hf2
        exact hv
      · exact h5 u w (by simpa [setPC_other hu] using hf)
  | readMiss t h hv =>
    refine ⟨?_, ?_, ?_, h4, ?_⟩
    · intro hwf u hold
      by_cases hu : u = t
      · subst hu; simp [holdsWrite, setPC_same] at hold
      · exact h1 hwf u (by simpa [holdsWrite, setPC_other hu] using hold)
    · intro u u' hu hu'
      by_cases h0 : u = t
      · subst h0; simp [holdsWrite, setPC_same] at hu
      · by_cases h0' : u' = t
        · subst h0'; simp [holdsWrite, setPC_same] at hu'
        · exact h2 u u' (by simpa [holdsWrite, setPC_other h0] using hu)
            (by simpa [holdsWrite, setPC_other h0'] using hu')
    · intro u hc
      by_cases hu : u = t
      · subst hu; simp [setPC_same] at hc
      · exact h3 u (by simpa [setPC_other hu] using hc)
    · intro u w hf
      by_cases hu : u = t
      · subst hu; simp [setPC_same] at hf
      · exact h5 u w (by simpa [setPC_other hu] using hf)
  | wlock t h hw hr =>
    refine ⟨?_, ?_, ?_, h4, ?_⟩
    · intro hwf
      simp at hwf
    · intro u u' hu hu'
      have keyt : ∀ w, holdsWrite { s with writerHeld := true, pcs := setPC s.pcs t .recheck } w → w = t := by
        intro w hww
        by_cases h0 : w = t
        · exact h0
        · exact absurd (by simpa [holdsWrite, setPC_other h0] using hww) (h1 hw w)
      rw [keyt u hu, keyt u' hu']
    · intro u hc
      by_cases hu : u = t
      · subst hu; simp [setPC_same] at hc
      · exact absurd (Or.inr (by simpa [setPC_other hu] using hc)) (h1 hw u)
    · intro u w hf
      by_cases hu : u = t
      · subst hu; simp [setPC_same] at hf
      · exact h5 u w (by simpa [setPC_other hu] using hf)
  | recheckHit t v h hv =>
    have keyt : ∀ w, holdsWrite s w → w = t := fun w hww => h2 w t hww (Or.inl h)
    refine ⟨?_, ?_, ?_, h4, ?_⟩
    · intro hwf u hold
      by_cases hu : u = t
      · subst hu; simp [holdsWrite, setPC_same] at hold
      · have : holdsWrite s u := by simpa [holdsWrite, setPC_other hu] using hold
        exact hu (keyt u this)
    · intro u u' hu hu'
      by_cases h0 : u = t
      · subst h0; simp [holdsWrite, setPC_same] at hu
      · exact absurd (keyt u (by simpa [holdsWrite, setPC_other h0] using hu)) h0
    · intro u hc
      by_cases hu : u = t
      · subst hu; simp [setPC_same] at hc
      · exact absurd (keyt u (Or.inr (by simpa [setPC_other hu] using hc))) hu
    · intro u w hf
      by_cases hu : u = t
      · subst hu
        have hf2 : SPC.finished v = SPC.finished w := by simpa [setPC_same] using hf
        cases hf2
        exact hv
      · exact h5 u w (by simpa [setPC_other hu] using hf)
  | recheckMiss t h hv =>
    refine ⟨?_, ?_, ?_, h4, ?_⟩
    · intro hwf u hold
      exact absurd (Or.inl h) (h1 hwf t)
    · intro u u' hu hu'
      have tr : ∀ w, holdsWrite { s with pcs := setPC s.pcs t .constructing } w → holdsWrite s w := by
        intro w hww
        by_cases h0 : w = t
        · subst h0; exact Or.inl h
        · simpa [holdsWrite, setPC_other h0] using hww
      exact h2 u u' (tr u hu) (tr u' hu')
    · intro u hc
      exact hv
    · intro u w hf
      by_cases hu : u = t
      · subst hu; simp [setPC_same] at hf
      · exact h5 u w (by simpa [setPC_other hu] using hf)
  | construct t h =>
    have hnone : s.inst = none := h3 t h
    have keyt : ∀ w, holdsWrite s w → w = t := fun w hww => h2 w t hww (Or.inr h)
    refine ⟨?_, ?_, ?_, ?_, ?_⟩
    · intro hwf u hold
      by_cases hu : u = t
      · subst hu; simp [holdsWrite, setPC_same] at hold
      · exact hu (keyt u (by simpa [holdsWrite, setPC_other hu] using hold))
    · intro u u' hu hu'
      by_cases h0 : u = t
      · subst h0; simp [holdsWrite, setPC_same] at hu
      · exact absurd (keyt u (by simpa [holdsWrite, setPC_other h0] using hu)) h0
    · intro u hc
      by_cases hu : u = t
      · subst hu; simp [setPC_same] at hc
      · exact absurd (keyt u (Or.inr (by simpa [setPC_other hu] using hc))) hu
    · have : s.constructions = 0 := by rw [h4, hnone]; rfl
      simp [this]
    · intro u w hf
      by_cases hu : u = t
      · subst hu
        have hf2 : SPC.finished s.nextVal = SPC.finished w := by simpa [setPC_same] using hf
        cases hf2
        rfl
      · have := h5 u w (by simpa [setPC_other hu] using hf)
        rw [hnone] at this
        cases this

theorem sInv_reach {s : SingletonSt} (h : SReach s) : SInv s := by
  induction h with
  | init => exact sInv_init
  | step hr hst ih => exact sInv_step ih hst

/-- Claim C5: in every state reachable by any interleaving of threads
running `resolveSingleton` on one provider, at most one construction has
occurred; any thread that has returned observed the published instance,
at which point exactly one construction has occurred; and all returning
threads, regardless of timing, observe the identical instance. -/
theorem claim_C5_singleton_once :
    ∀ s : SingletonSt, SReach s →
      s.constructions ≤ 1
      ∧ (∀ t v, s.pcs t = .finished v → s.inst = some v ∧ s.constructions = 1)
      ∧ (∀ t u v w, s.pcs t = .finished v → s.pcs u = .finished w → v = w) := by
  intro s hr
  obtain ⟨h1, h2, h3, h4, h5⟩ := sInv_reach hr
  refine ⟨?_, ?_, ?_⟩
  · rw [h4]; split <;> omega
  · intro t v hf
    have hi := h5 t v hf
    exact ⟨hi, by rw [h4, hi]; rfl⟩
  · intro t u v w hf hg
    have hv := h5 t v hf
    have hw := h5 u w hg
    rw [hv] at hw
    exact Option.some.inj hw

/-- A concrete five-step run of the protocol by thread 0: `RLock`, read
miss, `Lock`, re-check miss, construct. -/
def c5s1 : SingletonSt :=
  { singletonInit with
      readers := singletonInit.readers + 1,
      pcs := setPC singletonInit.pcs 0 .readCheck }

/-- State after thread 0's read miss. -/
def c5s2 : SingletonSt :=
  { c5s1 with readers := c5s1.readers - 1, pcs := setPC c5s1.pcs 0 .waitWrite }

/-- State after thread 0 takes the write lock. -/
def c5s3 : SingletonSt :=
  { c5s2 with writerHeld := true, pcs := setPC c5s2.pcs 0 .recheck }

/-- State after thread 0's re-check miss. -/
def c5s4 : SingletonSt :=
  { c5s3 with pcs := setPC c5s3.pcs 0 .constructing }

/-- State after thread 0 constructs and publishes the instance. -/
def c5s5 : SingletonSt :=
  { c5s4 with
      inst := some c5s4.nextVal,
      nextVal := c5s4.nextVal + 1,
      constructions := c5s4.constructions + 1,
      writerHeld := false,
      pcs := setPC c5s4.pcs 0 (.finished c5s4.nextVal) }

/-- Claim C5 witness: at the end of the concrete run, exactly one
construction has occurred and thread 0 observed the published
instance 0. -/
theorem claim_C5_witness :
    c5s5.constructions ≤ 1 ∧ c5s5.inst = some 0 ∧ c5s5.constructions = 1 := by
  have hreach : SReach c5s5 :=
    SReach.step
      (SReach.step
        (SReach.step
          (SReach.step
            (SReach.step SReach.init (SStep.rlock _ 0 rfl rfl))
            (SStep.readMiss _ 0 rfl rfl))
          (SStep.wlock _ 0 rfl rfl rfl))
        (SStep.recheckMiss _ 0 rfl rfl))
      (SStep.construct _ 0 rfl)
  have h := claim_C5_singleton_once c5s5 hreach
  exact ⟨h.1, (h.2.1 0 0 rfl).1, (h.2.1 0 0 rfl).2⟩

end Goblin
